import Mathlib

/-!
Shallow embedding of `src/internal_telemetry/allocations/mod.rs` (allocation
tracking exposed via internal telemetry), together with proofs about it.

The counter table `GROUP_MEM_METRICS` is `[AtomicU64; 1024]`; each slot is a
64-bit unsigned integer, modelled as a `Nat` kept strictly below `2^64`, with
`fetch_add` / `fetch_sub` modelled as wrapping addition / subtraction modulo
`2^64` (exactly the semantics of Rust's `AtomicU64::fetch_add` and
`fetch_sub`).  Single-threaded sequences of tracer calls are modelled as lists
of events folded over the table.  The reporter loop body is modelled as a pure
scan producing the list of emitted telemetry records; a failing
`Option::unwrap` is modelled as `Option.none` for the whole scan.
-/

/-- Number of slots of `GROUP_MEM_METRICS` (`[AtomicU64; 1024]`). -/
def CAPACITY : Nat := 1024

/-- Modulus of a 64-bit unsigned counter (`AtomicU64`). -/
def U64_MOD : Nat := 2 ^ 64

instance : NeZero U64_MOD := ⟨by norm_num [U64_MOD]⟩

/-- The counter table `GROUP_MEM_METRICS`: one `u64` value per slot.  The
invariant that every value is `< U64_MOD` is carried as a hypothesis where
needed. -/
def CounterTable := Fin CAPACITY → Nat

/-- The initial table: `arr![AtomicU64::new(0); 1024]`, all slots zero. -/
def zeroTable : CounterTable := fun _ => 0

/-- Rust `LocalProducerTracer::trace_allocation`:
`GROUP_MEM_METRICS[group_id].fetch_add(wrapped_size as u64, SeqCst)`.
The `as u64` cast and the wrapping `fetch_add` are both `% 2^64`. -/
def trace_allocation (t : CounterTable) (wrapped_size : Nat)
    (group_id : Fin CAPACITY) : CounterTable :=
  fun i =>
    if i = group_id then (t i + wrapped_size % U64_MOD) % U64_MOD else t i

/-- Rust `LocalProducerTracer::trace_deallocation`:
`GROUP_MEM_METRICS[source_group_id].fetch_sub(wrapped_size as u64, SeqCst)`.
Wrapping subtraction `x - s` on `u64` is `(x + (2^64 - s % 2^64)) % 2^64`. -/
def trace_deallocation (t : CounterTable) (wrapped_size : Nat)
    (group_id : Fin CAPACITY) : CounterTable :=
  fun i =>
    if i = group_id then
      (t i + (U64_MOD - wrapped_size % U64_MOD)) % U64_MOD
    else t i

/-- A single-threaded tracer call: either `trace_allocation` or
`trace_deallocation` with a wrapped size and a group id. -/
inductive AllocEvent where
  | alloc (size : Nat) (g : Fin CAPACITY)
  | dealloc (size : Nat) (g : Fin CAPACITY)
deriving DecidableEq

/-- Group id carried by an event. -/
def eventGroup : AllocEvent → Fin CAPACITY
  | .alloc _ g => g
  | .dealloc _ g => g

/-- Apply one tracer call to the counter table. -/
def applyEvent (t : CounterTable) : AllocEvent → CounterTable
  | .alloc s g => trace_allocation t s g
  | .dealloc s g => trace_deallocation t s g

/-- Run a single-threaded sequence of tracer calls, left to right. -/
def runEvents (t : CounterTable) : List AllocEvent → CounterTable
  | [] => t
  | e :: es => runEvents (applyEvent t e) es

/-- Sum of the allocation wrapped sizes of a sequence. -/
def sumAlloc : List AllocEvent → Nat
  | [] => 0
  | .alloc s _ :: es => s + sumAlloc es
  | .dealloc _ _ :: es => sumAlloc es

/-- Sum of the deallocation wrapped sizes of a sequence. -/
def sumDealloc : List AllocEvent → Nat
  | [] => 0
  | .alloc _ _ :: es => sumDealloc es
  | .dealloc s _ :: es => s + sumDealloc es

/-- One telemetry record emitted by the reporter loop's `info!` call, with
fields `group_id = idx` and `current_memory_allocated_in_bytes = mem_used`. -/
structure TelemetryRecord where
  group_id : Nat
  current_memory_allocated_in_bytes : Nat
deriving DecidableEq

/-- Rust `GROUP_MEM_METRICS.get(idx)`: `Some` of the slot when `idx` is in
bounds, `None` otherwise. -/
def tableGet (t : CounterTable) (idx : Nat) : Option Nat :=
  if h : idx < CAPACITY then some (t ⟨idx, h⟩) else none

/-- Body of the reporter loop's scan over a list of indices:
`let atomic_ref = GROUP_MEM_METRICS.get(idx).unwrap();`
`let mem_used = atomic_ref.load(Relaxed);`
`if mem_used == 0 { continue; }  info!(...)`.
A failing `unwrap` (a `None` from `get`) makes the whole scan `none`. -/
def reporterScanAux (t : CounterTable) : List Nat → Option (List TelemetryRecord)
  | [] => some []
  | idx :: rest =>
    match tableGet t idx with
    | none => none
    | some mem_used =>
      match reporterScanAux t rest with
      | none => none
      | some recs =>
        if mem_used = 0 then some recs
        else
          some ({ group_id := idx,
                  current_memory_allocated_in_bytes := mem_used } :: recs)

/-- One full cycle of the reporter loop's scan:
`for idx in 0..GROUP_MEM_METRICS.len()` with `len() = CAPACITY`. -/
def reporterScan (t : CounterTable) : Option (List TelemetryRecord) :=
  reporterScanAux t (List.range CAPACITY)

/-- Written from the spec's words, for comparison with `reporterScan`: one
record per non-zero counter, in index order `0..CAPACITY`, with fields
`group_id` (the index) and `current_memory_allocated_in_bytes` (the value);
nothing for a zero counter. -/
def emissionsSpec (t : CounterTable) : List TelemetryRecord :=
  (List.finRange CAPACITY).filterMap fun i =>
    if t i = 0 then none
    else some { group_id := i.val, current_memory_allocated_in_bytes := t i }

/-- Modelled from the spec: the Group Registry state behind
`AllocationGroupToken::register` (which lives in the `allocator` module, not
part of the source file).  Per the spec, the registry issues the next unused
GroupId from the bounded pool `[0, CAPACITY)`, id `0` being the reserved
default group; ids already issued are exactly those below `next_id`, and
tokens are never recycled. -/
structure RegistryState where
  next_id : Nat
deriving DecidableEq

/-- Set of group ids already issued (including the reserved default id 0). -/
def issuedIds (st : RegistryState) : Finset Nat :=
  Finset.range st.next_id

/-- Modelled from the spec: `AllocationGroupToken::register` issues the next
unused GroupId, failing (`None`) when all slots in `[0, CAPACITY)` are
taken. -/
def registerToken (st : RegistryState) : Option (Nat × RegistryState) :=
  if st.next_id < CAPACITY then some (st.next_id, ⟨st.next_id + 1⟩) else none

/-- Rust `acquire_allocation_group_id(_tags)`: the `_tags` parameter is bound
but never used; the body is
`AllocationGroupToken::register().expect("failed to register ...")`, whose
`expect` panic on registration failure is modelled as `none`. -/
def acquire_allocation_group_id (_tags : List (String × String))
    (st : RegistryState) : Option (Nat × RegistryState) :=
  registerToken st

/-- Externally visible effects of `init_allocation_tracing`, in order. -/
inductive InitEffect where
  | spawn_reporter
  | enable_allocation_tracing
deriving DecidableEq

/-- Rust `init_allocation_tracing()` as the ordered trace of its effects: the
source first spawns the `vector-alloc-processor` thread running the reporter
loop, and then calls `enable_allocation_tracing()`. -/
def init_allocation_tracing : List InitEffect :=
  [InitEffect.spawn_reporter, InitEffect.enable_allocation_tracing]

/-- Modelled from the spec: the per-thread tracking state seen by the
Wrapping Allocator; `tracking_suppressed` is the Reentrancy Guard flag. -/
structure ThreadTrackingState where
  tracking_suppressed : Bool
deriving DecidableEq

/-- Modelled from the spec: `without_allocation_tracing(f)` (in the
`allocator` module, not part of the source file) runs the closure `f` with
allocation tracking suppressed on the calling thread for the entire duration
of `f`; the reporter loop body runs wholly inside it. -/
def without_allocation_tracing {α : Type} (f : ThreadTrackingState → α) : α :=
  f ⟨true⟩

/-- Modelled from the spec: the Wrapping Allocator's allocation hot path.
When the Global Enable Switch is off or the Reentrancy Guard is set, it
delegates with no tracking; otherwise it invokes
`Tracer.trace_allocation(wrapped_size, group_id)`.  Returns the updated
counter table and the number of tracer calls made. -/
def trackedAllocate (enabled : Bool) (ts : ThreadTrackingState)
    (t : CounterTable) (wrapped_size : Nat) (group_id : Fin CAPACITY) :
    CounterTable × Nat :=
  if enabled && !ts.tracking_suppressed then
    (trace_allocation t wrapped_size group_id, 1)
  else (t, 0)

/-- Modelled from the spec: the Wrapping Allocator's deallocation hot path,
symmetric to `trackedAllocate`. -/
def trackedDeallocate (enabled : Bool) (ts : ThreadTrackingState)
    (t : CounterTable) (wrapped_size : Nat) (group_id : Fin CAPACITY) :
    CounterTable × Nat :=
  if enabled && !ts.tracking_suppressed then
    (trace_deallocation t wrapped_size group_id, 1)
  else (t, 0)

/-- Group id 0, the reserved default group. -/
def g0 : Fin CAPACITY := ⟨0, by norm_num [CAPACITY]⟩

/-- Group id 5, used as a concrete sample group. -/
def g5 : Fin CAPACITY := ⟨5, by norm_num [CAPACITY]⟩

/-- Concrete event sequence used as a sample input. -/
def wEvents : List AllocEvent := [AllocEvent.alloc 10 g0, AllocEvent.dealloc 4 g0]

theorem U64_MOD_pos : 0 < U64_MOD := by norm_num [U64_MOD]

theorem trace_allocation_other (t : CounterTable) (s : Nat) (g i : Fin CAPACITY)
    (h : i ≠ g) : trace_allocation t s g i = t i := by
  simp [trace_allocation, h]

theorem trace_deallocation_other (t : CounterTable) (s : Nat) (g i : Fin CAPACITY)
    (h : i ≠ g) : trace_deallocation t s g i = t i := by
  simp [trace_deallocation, h]

theorem trace_allocation_lt (t : CounterTable) (s : Nat) (g : Fin CAPACITY)
    (h : ∀ i, t i < U64_MOD) : ∀ i, trace_allocation t s g i < U64_MOD := by
  intro i
  by_cases hi : i = g
  · simp only [trace_allocation, if_pos hi]
    exact Nat.mod_lt _ U64_MOD_pos
  · rw [trace_allocation_other t s g i hi]; exact h i

theorem trace_deallocation_lt (t : CounterTable) (s : Nat) (g : Fin CAPACITY)
    (h : ∀ i, t i < U64_MOD) : ∀ i, trace_deallocation t s g i < U64_MOD := by
  intro i
  by_cases hi : i = g
  · simp only [trace_deallocation, if_pos hi]
    exact Nat.mod_lt _ U64_MOD_pos
  · rw [trace_deallocation_other t s g i hi]; exact h i

theorem trace_allocation_self_zmod (t : CounterTable) (s : Nat) (g : Fin CAPACITY) :
    ((trace_allocation t s g g : Nat) : ZMod U64_MOD) = (t g : ZMod U64_MOD) + s := by
  have hg : trace_allocation t s g g = (t g + s % U64_MOD) % U64_MOD := by
    simp [trace_allocation]
  rw [hg, ZMod.natCast_mod, Nat.cast_add, ZMod.natCast_mod]

theorem trace_deallocation_self_zmod (t : CounterTable) (s : Nat) (g : Fin CAPACITY) :
    ((trace_deallocation t s g g : Nat) : ZMod U64_MOD) = (t g : ZMod U64_MOD) - s := by
  have hg : trace_deallocation t s g g
      = (t g + (U64_MOD - s % U64_MOD)) % U64_MOD := by
    simp [trace_deallocation]
  have hs : s % U64_MOD ≤ U64_MOD := (Nat.mod_lt s U64_MOD_pos).le
  rw [hg, ZMod.natCast_mod, Nat.cast_add, Nat.cast_sub hs, ZMod.natCast_self,
    ZMod.natCast_mod]
  ring

theorem applyEvent_other (t : CounterTable) (e : AllocEvent) (i : Fin CAPACITY)
    (h : i ≠ eventGroup e) : applyEvent t e i = t i := by
  cases e with
  | alloc s g => exact trace_allocation_other t s g i h
  | dealloc s g => exact trace_deallocation_other t s g i h

theorem runEvents_other (es : List AllocEvent) (g : Fin CAPACITY) :
    ∀ t : CounterTable, (∀ e ∈ es, eventGroup e = g) →
      ∀ i, i ≠ g → runEvents t es i = t i := by
  induction es with
  | nil => intro t _ i _; rfl
  | cons e es ih =>
    intro t hg i hi
    have he : eventGroup e = g := hg e (List.mem_cons_self _ _)
    have htail := ih (applyEvent t e)
      (fun x hx => hg x (List.mem_cons_of_mem _ hx)) i hi
    rw [runEvents, htail, applyEvent_other t e i (he ▸ hi)]

theorem runEvents_lt (es : List AllocEvent) :
    ∀ t : CounterTable, (∀ i, t i < U64_MOD) →
      ∀ i, runEvents t es i < U64_MOD := by
  induction es with
  | nil => intro t h i; exact h i
  | cons e es ih =>
    intro t h i
    rw [runEvents]
    refine ih (applyEvent t e) ?_ i
    cases e with
    | alloc s g => exact trace_allocation_lt t s g h
    | dealloc s g => exact trace_deallocation_lt t s g h

theorem runEvents_self_zmod (es : List AllocEvent) (g : Fin CAPACITY) :
    ∀ t : CounterTable, (∀ e ∈ es, eventGroup e = g) →
      ((runEvents t es g : Nat) : ZMod U64_MOD)
        = (t g : ZMod U64_MOD) + sumAlloc es - sumDealloc es := by
  induction es with
  | nil => intro t _; simp [runEvents, sumAlloc, sumDealloc]
  | cons e es ih =>
    intro t hg
    have htail := ih (applyEvent t e)
      (fun x hx => hg x (List.mem_cons_of_mem _ hx))
    cases e with
    | alloc s gp =>
      have he : gp = g := hg _ (List.mem_cons_self _ _)
      subst he
      rw [runEvents, htail]
      show ((applyEvent t (AllocEvent.alloc s gp) gp : Nat) : ZMod U64_MOD)
          + _ - _ = _
      rw [applyEvent, trace_allocation_self_zmod, sumAlloc, sumDealloc]
      push_cast
      ring
    | dealloc s gp =>
      have he : gp = g := hg _ (List.mem_cons_self _ _)
      subst he
      rw [runEvents, htail]
      show ((applyEvent t (AllocEvent.dealloc s gp) gp : Nat) : ZMod U64_MOD)
          + _ - _ = _
      rw [applyEvent, trace_deallocation_self_zmod, sumAlloc, sumDealloc]
      push_cast
      ring

/-- C2: for every single-threaded sequence of `trace_allocation` and matching
`trace_deallocation` calls all carrying one fixed group id `g` (matching means
the deallocated total never exceeds the allocated total, and the live
difference fits in a `u64`), starting from the all-zero counter table, the
final value of `counter[g]` equals the sum of the allocation wrapped sizes
minus the sum of the deallocation wrapped sizes, and every other counter
remains 0. -/
theorem tracer_sequence_counter (es : List AllocEvent) (g : Fin CAPACITY)
    (hg : ∀ e ∈ es, eventGroup e = g)
    (hbal : sumDealloc es ≤ sumAlloc es)
    (hfit : sumAlloc es - sumDealloc es < U64_MOD) :
    runEvents zeroTable es g = sumAlloc es - sumDealloc es ∧
    ∀ i, i ≠ g → runEvents zeroTable es i = 0 := by
  constructor
  · have h1 : ((runEvents zeroTable es g : Nat) : ZMod U64_MOD)
        = ((sumAlloc es - sumDealloc es : Nat) : ZMod U64_MOD) := by
      rw [runEvents_self_zmod es g zeroTable hg, Nat.cast_sub hbal]
      simp [zeroTable]
    have h2 : runEvents zeroTable es g < U64_MOD :=
      runEvents_lt es zeroTable (fun i => by norm_num [zeroTable, U64_MOD]) g
    calc runEvents zeroTable es g
        = ((runEvents zeroTable es g : Nat) : ZMod U64_MOD).val :=
          (ZMod.val_cast_of_lt h2).symm
      _ = ((sumAlloc es - sumDealloc es : Nat) : ZMod U64_MOD).val := by rw [h1]
      _ = sumAlloc es - sumDealloc es := ZMod.val_cast_of_lt hfit
  · intro i hi
    simpa [zeroTable] using runEvents_other es g zeroTable hg i hi

/-- Witness for `tracer_sequence_counter`: the concrete sequence
`[alloc 10 g0, dealloc 4 g0]` satisfies the hypotheses and leaves
`counter[g0] = 6`. -/
theorem tracer_sequence_counter_witness :
    (∀ e ∈ wEvents, eventGroup e = g0) ∧
    sumDealloc wEvents ≤ sumAlloc wEvents ∧
    sumAlloc wEvents - sumDealloc wEvents < U64_MOD ∧
    runEvents zeroTable wEvents g0 = sumAlloc wEvents - sumDealloc wEvents :=
  ⟨by decide, by decide, by decide,
   (tracer_sequence_counter wEvents g0 (by decide) (by decide) (by decide)).1⟩

/-- C3: for every group id `g` and size `s`, `trace_allocation s g` followed
by `trace_deallocation s g` restores the entire counter table (assuming the
table invariant that every slot is a `u64` value); in particular, from the
all-zero table, `trace_allocation 4096 g` makes `counter[g] = 4096` and the
subsequent `trace_deallocation 4096 g` makes `counter[g] = 0` again. -/
theorem alloc_dealloc_restores (t : CounterTable) (s : Nat) (g : Fin CAPACITY)
    (h : ∀ i, t i < U64_MOD) :
    trace_deallocation (trace_allocation t s g) s g = t ∧
    trace_allocation zeroTable 4096 g g = 4096 ∧
    trace_deallocation (trace_allocation zeroTable 4096 g) 4096 g g = 0 := by
  have key : ∀ (tb : CounterTable) (sz : Nat), (∀ i, tb i < U64_MOD) →
      trace_deallocation (trace_allocation tb sz g) sz g = tb := by
    intro tb sz hb
    funext i
    by_cases hi : i = g
    · subst hi
      have hlt : trace_deallocation (trace_allocation tb sz i) sz i i
          < U64_MOD :=
        trace_deallocation_lt _ sz i (trace_allocation_lt tb sz i hb) i
      have hz :
          ((trace_deallocation (trace_allocation tb sz i) sz i i : Nat) :
              ZMod U64_MOD) = ((tb i : Nat) : ZMod U64_MOD) := by
        rw [trace_deallocation_self_zmod, trace_allocation_self_zmod]
        ring
      calc trace_deallocation (trace_allocation tb sz i) sz i i
          = ((trace_deallocation (trace_allocation tb sz i) sz i i : Nat) :
              ZMod U64_MOD).val := (ZMod.val_cast_of_lt hlt).symm
        _ = ((tb i : Nat) : ZMod U64_MOD).val := by rw [hz]
        _ = tb i := ZMod.val_cast_of_lt (hb i)
    · rw [trace_deallocation_other _ sz g i hi,
        trace_allocation_other tb sz g i hi]
  refine ⟨key t s h, ?_, ?_⟩
  · simp [trace_allocation, zeroTable, U64_MOD]
  · rw [key zeroTable 4096 (fun i => by norm_num [zeroTable, U64_MOD])]
    rfl

/-- Witness for `alloc_dealloc_restores`: the all-zero table and size 3 at
group `g5`. -/
theorem alloc_dealloc_restores_witness :
    (∀ i, zeroTable i < U64_MOD) ∧
    trace_deallocation (trace_allocation zeroTable 3 g5) 3 g5 = zeroTable :=
  ⟨fun i => by norm_num [zeroTable, U64_MOD],
   (alloc_dealloc_restores zeroTable 3 g5
      (fun i => by norm_num [zeroTable, U64_MOD])).1⟩

/-- C5: `trace_allocation s g` adds `s` (modulo `2^64`) at index `g` and
leaves every other counter unchanged; `trace_deallocation s g` subtracts `s`
(modulo `2^64`) at index `g` and leaves every other counter unchanged. -/
theorem tracer_updates_only_group (t : CounterTable) (s : Nat)
    (g g' : Fin CAPACITY) (h : g' ≠ g) :
    trace_allocation t s g g' = t g' ∧
    trace_deallocation t s g g' = t g' ∧
    ((trace_allocation t s g g : Nat) : ZMod U64_MOD)
      = (t g : ZMod U64_MOD) + s ∧
    ((trace_deallocation t s g g : Nat) : ZMod U64_MOD)
      = (t g : ZMod U64_MOD) - s :=
  ⟨trace_allocation_other t s g g' h, trace_deallocation_other t s g g' h,
   trace_allocation_self_zmod t s g, trace_deallocation_self_zmod t s g⟩

/-- Witness for `tracer_updates_only_group`: group `g0` updated, slot `g5`
untouched, on the all-zero table with size 7. -/
theorem tracer_updates_only_group_witness :
    g5 ≠ g0 ∧ trace_allocation zeroTable 7 g0 g5 = zeroTable g5 :=
  ⟨by decide, (tracer_updates_only_group zeroTable 7 g0 g5 (by decide)).1⟩

/-- C1 counterexample: the counters are `u64`, not signed.  Deallocating one
byte from the all-zero table leaves `counter[g0] = 2^64 - 1`, the wrapped
unsigned value, which is not the signed difference `0 - 1 = -1`. -/
theorem counter_unsigned_cex :
    trace_deallocation zeroTable 1 g0 g0 = U64_MOD - 1 ∧
    ((trace_deallocation zeroTable 1 g0 g0 : Nat) : Int) ≠ (0 : Int) - 1 := by
  have h : trace_deallocation zeroTable 1 g0 g0 = U64_MOD - 1 := by
    norm_num [trace_deallocation, zeroTable, U64_MOD]
  refine ⟨h, ?_⟩
  rw [h]
  norm_num [U64_MOD]

/-- C1 amended: the Counter Table is an array of CAPACITY (1024) unsigned
64-bit accumulators; when the bytes passed to `trace_deallocation` for a
group exceed the group's current counter value, the counter holds the
difference wrapped modulo `2^64` (`2^64 + t g - s`, congruent to the signed
difference modulo `2^64`), not a negative value. -/
theorem counter_wraps_on_excess_dealloc (t : CounterTable) (s : Nat)
    (g : Fin CAPACITY) (hgt : t g < s) (hs : s < U64_MOD) :
    trace_deallocation t s g g = U64_MOD + t g - s ∧
    ((U64_MOD + t g - s : Nat) : ZMod U64_MOD) = (t g : ZMod U64_MOD) - s := by
  constructor
  · have hg : trace_deallocation t s g g
        = (t g + (U64_MOD - s % U64_MOD)) % U64_MOD := by
      simp [trace_deallocation]
    have hsm : s % U64_MOD = s := Nat.mod_eq_of_lt hs
    rw [hg, hsm, Nat.mod_eq_of_lt (by omega)]
    omega
  · have hle : s ≤ U64_MOD + t g := by omega
    rw [Nat.cast_sub hle, Nat.cast_add, ZMod.natCast_self]
    ring

/-- Witness for `counter_wraps_on_excess_dealloc`: deallocating one byte from
the all-zero table at group `g0`. -/
theorem counter_wraps_on_excess_dealloc_witness :
    zeroTable g0 < 1 ∧ (1 : Nat) < U64_MOD ∧
    trace_deallocation zeroTable 1 g0 g0 = U64_MOD + zeroTable g0 - 1 :=
  ⟨Nat.one_pos, by norm_num [U64_MOD],
   (counter_wraps_on_excess_dealloc zeroTable 1 g0 Nat.one_pos
      (by norm_num [U64_MOD])).1⟩

theorem reporterScanAux_finRange (t : CounterTable)
    (l : List (Fin CAPACITY)) :
    reporterScanAux t (l.map Fin.val) =
      some (l.filterMap fun i =>
        if t i = 0 then none
        else some { group_id := i.val,
                    current_memory_allocated_in_bytes := t i }) := by
  induction l with
  | nil => rfl
  | cons i l ih =>
    have hget : tableGet t i.val = some (t i) := by
      simp [tableGet, i.isLt]
    rw [List.map_cons, reporterScanAux, hget, ih, List.filterMap_cons]
    by_cases h0 : t i = 0 <;> simp [h0]

theorem reporterScan_eq (t : CounterTable) :
    reporterScan t = some (emissionsSpec t) := by
  rw [reporterScan, ← List.map_coe_finRange CAPACITY,
    reporterScanAux_finRange, emissionsSpec]

/-- C4: each reporter-loop cycle scans all CAPACITY counters in index order
`0..1023` and emits exactly one telemetry record per counter whose value at
scan time is non-zero — with fields `group_id` (the index) and
`current_memory_allocated_in_bytes` (the loaded value) — and emits nothing
for a zero counter: the scan never panics and its emission list is exactly
`emissionsSpec`, and a record is emitted iff some slot is non-zero with
exactly those fields. -/
theorem reporter_cycle_emissions (t : CounterTable) :
    reporterScan t = some (emissionsSpec t) ∧
    ∀ r : TelemetryRecord, r ∈ emissionsSpec t ↔
      ∃ i : Fin CAPACITY, t i ≠ 0 ∧
        r = { group_id := i.val, current_memory_allocated_in_bytes := t i } := by
  refine ⟨reporterScan_eq t, ?_⟩
  intro r
  simp only [emissionsSpec, List.mem_filterMap, List.mem_finRange, true_and]
  constructor
  · rintro ⟨i, hi⟩
    by_cases h0 : t i = 0
    · rw [if_pos h0] at hi; exact absurd hi (by simp)
    · rw [if_neg h0, Option.some_inj] at hi
      exact ⟨i, h0, hi.symm⟩
  · rintro ⟨i, h0, rfl⟩
    exact ⟨i, by rw [if_neg h0]⟩

/-- C10: the reporter loop's per-slot lookup never fails: for every index
`idx` below `GROUP_MEM_METRICS.len() = CAPACITY`, `tableGet` returns `some`,
so the `unwrap` in the scan loop is unreachable as a panic and the whole scan
is total (never `none`). -/
theorem scan_get_total (t : CounterTable) (idx : Nat) (h : idx < CAPACITY) :
    (tableGet t idx).isSome ∧ (reporterScan t).isSome := by
  refine ⟨?_, ?_⟩
  · simp [tableGet, h]
  · rw [reporterScan_eq]; rfl

/-- Witness for `scan_get_total`: index 0 of the all-zero table. -/
theorem scan_get_total_witness :
    0 < CAPACITY ∧
    ((tableGet zeroTable 0).isSome ∧ (reporterScan zeroTable).isSome) :=
  ⟨by norm_num [CAPACITY], scan_get_total zeroTable 0 (by norm_num [CAPACITY])⟩

/-- C6: when all group slots are taken (`next_id = CAPACITY`, i.e. the 1024
ids `0..1023` including the reserved default 0 are issued), every further
call to `acquire_allocation_group_id` fails (the `expect` panics, modelled as
`none`); moreover any successful call ever returns an id inside
`[0, CAPACITY)` that was not previously issued, and only extends the issued
set by that id — it never reuses or overwrites an existing group's id. -/
theorem capacity_exhausted_registration (st : RegistryState)
    (tags : List (String × String)) (h : st.next_id = CAPACITY) :
    acquire_allocation_group_id tags st = none ∧
    ∀ (st' : RegistryState) (tags' : List (String × String)) (id : Nat)
        (st'' : RegistryState),
      acquire_allocation_group_id tags' st' = some (id, st'') →
      id < CAPACITY ∧ id ∉ issuedIds st' ∧
        issuedIds st'' = insert id (issuedIds st') := by
  constructor
  · simp [acquire_allocation_group_id, registerToken, h]
  · intro st' tags' id st'' hs
    rw [acquire_allocation_group_id, registerToken] at hs
    rcases Nat.lt_or_ge st'.next_id CAPACITY with hlt | hge
    · rw [if_pos hlt, Option.some_inj, Prod.mk.injEq] at hs
      obtain ⟨rfl, rfl⟩ := hs
      exact ⟨hlt, Finset.not_mem_range_self, Finset.range_succ⟩
    · rw [if_neg (Nat.not_lt.mpr hge)] at hs
      exact absurd hs (by simp)

/-- Witness for `capacity_exhausted_registration`: the registry with all
1024 ids issued rejects a further registration. -/
theorem capacity_exhausted_registration_witness :
    (⟨CAPACITY⟩ : RegistryState).next_id = CAPACITY ∧
    acquire_allocation_group_id [] ⟨CAPACITY⟩ = none :=
  ⟨rfl, (capacity_exhausted_registration ⟨CAPACITY⟩ [] rfl).1⟩

/-- C7: the `tags` argument of `acquire_allocation_group_id` is accepted but
not consumed: from the same registry state, calls with any two tag sequences
have identical behavior (same returned token or same failure, same state
change). -/
theorem tags_not_consumed (t1 t2 : List (String × String))
    (st : RegistryState) :
    acquire_allocation_group_id t1 st = acquire_allocation_group_id t2 st :=
  rfl

/-- C8: `init_allocation_tracing` performs its two effects in this order: it
first spawns the reporter-loop thread, and only after that calls
`enable_allocation_tracing`; the enable step never precedes the spawn. -/
theorem init_effects_order :
    init_allocation_tracing =
      [InitEffect.spawn_reporter, InitEffect.enable_allocation_tracing] ∧
    init_allocation_tracing.indexOf InitEffect.spawn_reporter = 0 ∧
    init_allocation_tracing.indexOf InitEffect.enable_allocation_tracing = 1 :=
  ⟨rfl, by decide, by decide⟩

/-- C9: the reporter loop runs with tracking of its own allocations disabled:
`without_allocation_tracing` hands its whole body (scan, emission and sleep)
the suppressed thread state, and under that state any allocation or
deallocation performed by the reporter leaves the counter table unchanged and
makes zero tracer calls — no recursive tracking. -/
theorem reporter_guard_suppresses (enabled : Bool) (t : CounterTable)
    (s : Nat) (g : Fin CAPACITY) :
    (∀ (α : Type) (body : ThreadTrackingState → α),
      without_allocation_tracing body = body ⟨true⟩) ∧
    trackedAllocate enabled ⟨true⟩ t s g = (t, 0) ∧
    trackedDeallocate enabled ⟨true⟩ t s g = (t, 0) := by
  refine ⟨fun α body => rfl, ?_, ?_⟩ <;>
    simp [trackedAllocate, trackedDeallocate]
